import Mathlib

/-!
A shallow embedding of the `entity-tag` crate (`src/lib.rs`, `src/entity_tag_error.rs`).

Rust strings are modelled as lists of bytes (`List Nat`); all the characters the
code inspects (`"`, `W`, `/`) are ASCII, so the char-level operations of the Rust
code (strip_prefix, strip_suffix, String::remove) coincide with the byte-level
operations used here on every reachable input.
-/

set_option maxHeartbeats 1000000

/-- Possible errors of `EntityTag` (from `src/entity_tag_error.rs`). -/
inductive EntityTagError where
  | MissingStartingDoubleQuote
  | MissingClosingDoubleQuote
  | InvalidTag
deriving DecidableEq, Repr

instance {ε α : Type} [DecidableEq ε] [DecidableEq α] : DecidableEq (Except ε α) := by
  intro a b
  cases a <;> cases b
  case error.error e f =>
    exact if h : e = f then .isTrue (by rw [h]) else .isFalse (by intro c; cases c; exact h rfl)
  case ok.ok x y =>
    exact if h : x = y then .isTrue (by rw [h]) else .isFalse (by intro c; cases c; exact h rfl)
  case error.ok e x => exact .isFalse (by intro c; cases c)
  case ok.error x e => exact .isFalse (by intro c; cases c)

/-- An entity tag (from `src/lib.rs`): a weakness flag and the opaque-tag body,
stored without the surrounding double quotes. The body is a byte list. -/
structure EntityTag where
  weak : Bool
  tag : List Nat
deriving DecidableEq, Repr

namespace EntityTag

/-- One byte of the `etagc` production, exactly as tested by `check_unquoted_tag`:
`c == b'\x21' || (b'\x23'..=b'\x7e').contains(&c) || c >= b'\x80'`. -/
def etagc_byte (c : Nat) : Bool :=
  c == 0x21 || (decide (0x23 ≤ c) && decide (c ≤ 0x7e)) || decide (0x80 ≤ c)

/-- Rust `EntityTag::check_unquoted_tag`. -/
def check_unquoted_tag (s : List Nat) : Except EntityTagError Unit :=
  if s.all etagc_byte then .ok () else .error .InvalidTag

/-- Rust `EntityTag::check_tag`: strips one optional pair of surrounding double quotes,
then validates the body; returns whether the input was quoted. -/
def check_tag (s : List Nat) : Except EntityTagError Bool :=
  if s.head? = some 0x22 then
    if s.tail.getLast? = some 0x22 then
      (check_unquoted_tag s.tail.dropLast).map (fun _ => true)
    else .error .MissingClosingDoubleQuote
  else
    (check_unquoted_tag s).map (fun _ => false)

/-- Rust `EntityTag::with_str`: quote-tolerant constructor; on the quoted path the body
is the slice `&tag[1..tag.len()-1]`. -/
def with_str (weak : Bool) (tag : List Nat) : Except EntityTagError EntityTag :=
  (check_tag tag).map fun quoted =>
    { weak, tag := if quoted then (tag.drop 1).dropLast else tag }

/-- Rust `EntityTag::with_string`: quote-tolerant constructor; on the quoted path the
last char is removed first (`tag.remove(tag.len()-1)`), then the first
(`tag.remove(0)`). Both removed chars are the single-byte `"`. -/
def with_string (weak : Bool) (tag : List Nat) : Except EntityTagError EntityTag :=
  (check_tag tag).map fun quoted =>
    { weak, tag := if quoted then tag.dropLast.drop 1 else tag }

/-- Rust `EntityTag::check_opaque_tag`: the strict wire check; a starting double quote,
a closing double quote, and `etagc` bytes in between. -/
def check_opaque_tag (s : List Nat) : Except EntityTagError Unit :=
  if s.head? = some 0x22 then
    if s.tail.getLast? = some 0x22 then
      check_unquoted_tag s.tail.dropLast
    else .error .MissingClosingDoubleQuote
  else .error .MissingStartingDoubleQuote

/-- The shared weak-marker stripping of `from_str`/`from_string`:
`s.strip_prefix("W/")` at byte level (`W` = 0x57, `/` = 0x2F). Returns the
weak flag and the remaining opaque tag. -/
def strip_weak (s : List Nat) : Bool × List Nat :=
  if s.take 2 = [0x57, 0x2F] then (true, s.drop 2) else (false, s)

/-- Rust `EntityTag::from_str`: strict parser, slicing out `opaque_tag[1..len-1]`. -/
def from_str (etag : List Nat) : Except EntityTagError EntityTag :=
  (check_opaque_tag (strip_weak etag).2).map fun _ =>
    { weak := (strip_weak etag).1, tag := ((strip_weak etag).2.drop 1).dropLast }

/-- Rust `EntityTag::from_string`: strict parser operating on the owned string: it
removes the final `"` char of the whole input, then either drains the three
leading bytes `W/"` (weak) or removes the single leading `"` char. -/
def from_string (etag : List Nat) : Except EntityTagError EntityTag :=
  (check_opaque_tag (strip_weak etag).2).map fun _ =>
    { weak := (strip_weak etag).1,
      tag := if (strip_weak etag).1 then etag.dropLast.drop 3 else etag.dropLast.drop 1 }

/-- Little-endian byte encoding (`u64::to_le_bytes` is `toLeBytes 8`,
`u128::to_le_bytes` is `toLeBytes 16`). -/
def toLeBytes : Nat → Nat → List Nat
  | 0, _ => []
  | k + 1, n => n % 256 :: toLeBytes k (n / 256)

/-- The standard base64 alphabet character for a 6-bit value. -/
def b64char (n : Nat) : Nat :=
  if n < 26 then 65 + n
  else if n < 52 then 97 + (n - 26)
  else if n < 62 then 48 + (n - 52)
  else if n = 62 then 43
  else 47

/-- Rust `base64::encode_config(_, base64::STANDARD_NO_PAD)`: standard base64 encoding
without padding, from the external `base64` crate (behaviour fixed by the
standard base64 alphabet the spec names). -/
def base64_encode : List Nat → List Nat
  | b0 :: b1 :: b2 :: rest =>
    let v := (b0 % 256) * 65536 + (b1 % 256) * 256 + (b2 % 256)
    b64char (v / 262144) :: b64char (v / 4096 % 64) :: b64char (v / 64 % 64) ::
      b64char (v % 64) :: base64_encode rest
  | [b0, b1] =>
    let v := (b0 % 256) * 1024 + (b1 % 256) * 4
    [b64char (v / 4096), b64char (v / 64 % 64), b64char (v % 64)]
  | [b0] =>
    let v := (b0 % 256) * 16
    [b64char (v / 64), b64char (v % 64)]
  | [] => []

/-- Rust `EntityTag::from_data`. `wyhash` is a parameter: `Modelled from the spec:` the
64-bit hasher comes from the external `wyhash` crate, not from this repository;
the spec fixes only that it is a deterministic 64-bit hash of a seed and the
byte stream written to it, so it is passed in as `seed → bytes → hash`. -/
def from_data (wyhash : Nat → List Nat → Nat) (data : List Nat) : EntityTag :=
  { weak := false, tag := base64_encode (toLeBytes 8 (wyhash 3 data)) }

/-- Rust `UNIX_EPOCH.duration_since(t)` in whole nanoseconds, where `t` is the
modification time as a signed nanosecond offset from the epoch: defined (`Ok`)
exactly when the epoch is not earlier than `t`. The `.unwrap()` in
`from_file_meta` is modelled by propagating `none`. -/
def epoch_duration_since (t : Int) : Option Nat :=
  if t ≤ 0 then some (-t).toNat else none

/-- The byte stream `from_file_meta` writes into its hasher: the file length's
8 little-endian bytes, then (when the modification time is available) either
the 16 little-endian bytes of its nanosecond offset past the epoch, or the
marker byte `-` (0x2D) followed by the 16 little-endian bytes of the
epoch-minus-time duration; `none` only if the modelled `.unwrap()` would
panic. -/
def file_meta_hash_input (len : Nat) (modified : Option Int) : Option (List Nat) :=
  match modified with
  | none => some (toLeBytes 8 (len % 2 ^ 64))
  | some t =>
    if 0 ≤ t then some (toLeBytes 8 (len % 2 ^ 64) ++ toLeBytes 16 t.toNat)
    else
      match epoch_duration_since t with
      | some d => some (toLeBytes 8 (len % 2 ^ 64) ++ 0x2D :: toLeBytes 16 d)
      | none => none

/-- Rust `EntityTag::from_file_meta`, over the data it reads from `Metadata`: the file
length (a `u64`) and the modification time as an optional signed nanosecond
offset from `UNIX_EPOCH` (`none` when `metadata.modified()` is unavailable). -/
def from_file_meta (wyhash : Nat → List Nat → Nat) (len : Nat) (modified : Option Int) :
    Option EntityTag :=
  (file_meta_hash_input len modified).map fun i =>
    { weak := true, tag := base64_encode (toLeBytes 8 (wyhash 4 i)) }

/-- Rust `EntityTag::strong_eq`. -/
def strong_eq (a b : EntityTag) : Bool :=
  !a.weak && !b.weak && a.tag == b.tag

/-- Rust `EntityTag::weak_eq`. -/
def weak_eq (a b : EntityTag) : Bool :=
  a.tag == b.tag

/-- Rust `EntityTag::strong_ne`. -/
def strong_ne (a b : EntityTag) : Bool :=
  !(strong_eq a b)

/-- Rust `EntityTag::weak_ne`. -/
def weak_ne (a b : EntityTag) : Bool :=
  !(weak_eq a b)

/-- The `Display` implementation: `W/` when weak, then the body in double
quotes. -/
def display (t : EntityTag) : List Nat :=
  (if t.weak then [0x57, 0x2F] else []) ++ [0x22] ++ t.tag ++ [0x22]

end EntityTag

/-- One byte of the `etagc` production as the spec's ABNF writes it:
`%x21 / %x23-7E / %x80-FF`. -/
def spec_etagc (c : Nat) : Prop :=
  c = 0x21 ∨ (0x23 ≤ c ∧ c ≤ 0x7e) ∨ (0x80 ≤ c ∧ c ≤ 0xff)

/-- The wire grammar of the spec:
`entity-tag = [ "W/" ] DQUOTE *etagc DQUOTE`. -/
def matches_wire_grammar (w : List Nat) : Prop :=
  ∃ (weak : Bool) (body : List Nat), (∀ c ∈ body, spec_etagc c) ∧
    w = (if weak then [0x57, 0x2F] else []) ++ 0x22 :: (body ++ [0x22])

section Helpers

open EntityTag

lemma etagc_byte_iff (c : Nat) :
    etagc_byte c = true ↔ (c = 0x21 ∨ (0x23 ≤ c ∧ c ≤ 0x7e) ∨ 0x80 ≤ c) := by
  simp [etagc_byte, Bool.or_eq_true, Bool.and_eq_true, decide_eq_true_eq, beq_iff_eq,
    or_assoc]

lemma etagc_byte_quote : etagc_byte 0x22 = false := by decide

lemma spec_etagc_imp {c : Nat} (h : spec_etagc c) : etagc_byte c = true := by
  rw [etagc_byte_iff]
  rcases h with h | h | h
  · exact Or.inl h
  · exact Or.inr (Or.inl h)
  · exact Or.inr (Or.inr h.1)

lemma all_etagc_of_spec {body : List Nat} (h : ∀ c ∈ body, spec_etagc c) :
    body.all etagc_byte = true := by
  rw [List.all_eq_true]
  intro c hc
  exact spec_etagc_imp (h c hc)

lemma no_quote_of_all_etagc {l : List Nat} (h : l.all etagc_byte = true) : 0x22 ∉ l := by
  intro hmem
  have := (List.all_eq_true.mp h) _ hmem
  rw [etagc_byte_quote] at this
  exact Bool.false_ne_true this

lemma dropLast_drop_comm (l : List Nat) (n : Nat) :
    (l.drop n).dropLast = l.dropLast.drop n := by
  rw [List.dropLast_eq_take, List.dropLast_eq_take, List.drop_take, List.length_drop]
  congr 1
  omega

lemma check_unquoted_tag_eq_ok (s : List Nat) :
    check_unquoted_tag s = .ok () ↔ s.all etagc_byte = true := by
  unfold check_unquoted_tag
  split <;> simp_all

lemma check_unquoted_tag_eq_err (s : List Nat) :
    check_unquoted_tag s = .error .InvalidTag ↔ ¬ s.all etagc_byte = true := by
  unfold check_unquoted_tag
  split <;> simp_all

end Helpers

/-- Claim C2: `check_unquoted_tag` succeeds iff every byte of the input is
`0x21`, lies in `[0x23, 0x7E]`, or is at least `0x80`; on any other byte it
returns the `InvalidTag` error; the empty string is accepted. -/
theorem check_unquoted_tag_spec (s : List Nat) :
    (EntityTag.check_unquoted_tag s = .ok () ↔
      ∀ c ∈ s, c = 0x21 ∨ (0x23 ≤ c ∧ c ≤ 0x7e) ∨ 0x80 ≤ c)
    ∧ (EntityTag.check_unquoted_tag s = .error .InvalidTag ↔
      ¬ ∀ c ∈ s, c = 0x21 ∨ (0x23 ≤ c ∧ c ≤ 0x7e) ∨ 0x80 ≤ c)
    ∧ EntityTag.check_unquoted_tag [] = .ok () := by
  have hall : EntityTag.check_unquoted_tag s = .ok () ↔
      ∀ c ∈ s, c = 0x21 ∨ (0x23 ≤ c ∧ c ≤ 0x7e) ∨ 0x80 ≤ c := by
    rw [check_unquoted_tag_eq_ok, List.all_eq_true]
    constructor
    · intro h c hc
      exact (etagc_byte_iff c).mp (h c hc)
    · intro h c hc
      exact (etagc_byte_iff c).mpr (h c hc)
  refine ⟨hall, ?_, by rfl⟩
  rw [check_unquoted_tag_eq_err, ← hall]
  unfold EntityTag.check_unquoted_tag
  split <;> simp_all

/-- Claim C4: `strong_eq` holds iff neither side is weak and the tag bodies are
equal; `weak_eq` holds iff the tag bodies are equal ignoring weakness;
`strong_ne` and `weak_ne` are their boolean negations. -/
theorem comparator_spec (a b : EntityTag) :
    (EntityTag.strong_eq a b = true ↔ a.weak = false ∧ b.weak = false ∧ a.tag = b.tag)
    ∧ (EntityTag.weak_eq a b = true ↔ a.tag = b.tag)
    ∧ EntityTag.strong_ne a b = !(EntityTag.strong_eq a b)
    ∧ EntityTag.weak_ne a b = !(EntityTag.weak_eq a b) := by
  refine ⟨?_, ?_, rfl, rfl⟩
  · simp [EntityTag.strong_eq, Bool.and_eq_true, beq_iff_eq, Bool.not_eq_true',
      and_assoc]
  · simp [EntityTag.weak_eq, beq_iff_eq]

/-- Claim C10: on the one-byte input consisting of a lone double quote, both
quote-tolerant constructors fail with `MissingClosingDoubleQuote`, for either
weakness flag. -/
theorem lone_double_quote_fails :
    EntityTag.with_str false [0x22] = .error .MissingClosingDoubleQuote
    ∧ EntityTag.with_str true [0x22] = .error .MissingClosingDoubleQuote
    ∧ EntityTag.with_string false [0x22] = .error .MissingClosingDoubleQuote
    ∧ EntityTag.with_string true [0x22] = .error .MissingClosingDoubleQuote := by
  refine ⟨rfl, rfl, rfl, rfl⟩

section OpaqueHelpers

open EntityTag

lemma except_map_eq_error {ε α β : Type} (f : α → β) (e : Except ε α) (x : ε) :
    e.map f = .error x ↔ e = .error x := by
  cases e <;> simp [Except.map]

lemma check_opaque_tag_eq_msdq (s : List Nat) :
    check_opaque_tag s = .error .MissingStartingDoubleQuote ↔ s.head? ≠ some 0x22 := by
  unfold check_opaque_tag check_unquoted_tag
  split_ifs <;> simp_all

lemma check_opaque_tag_eq_mcdq (s : List Nat) :
    check_opaque_tag s = .error .MissingClosingDoubleQuote ↔
      (s.head? = some 0x22 ∧ s.tail.getLast? ≠ some 0x22) := by
  unfold check_opaque_tag check_unquoted_tag
  split_ifs <;> simp_all

lemma check_opaque_tag_eq_invalid (s : List Nat) :
    check_opaque_tag s = .error .InvalidTag ↔
      (s.head? = some 0x22 ∧ s.tail.getLast? = some 0x22 ∧
        ¬ s.tail.dropLast.all etagc_byte = true) := by
  unfold check_opaque_tag check_unquoted_tag
  split_ifs <;> simp_all

lemma check_opaque_tag_eq_ok (s : List Nat) :
    check_opaque_tag s = .ok () ↔
      (s.head? = some 0x22 ∧ s.tail.getLast? = some 0x22 ∧
        s.tail.dropLast.all etagc_byte = true) := by
  unfold check_opaque_tag check_unquoted_tag
  split_ifs <;> simp_all

lemma from_str_eq_error (s : List Nat) (e : EntityTagError) :
    from_str s = .error e ↔ check_opaque_tag (strip_weak s).2 = .error e := by
  unfold from_str
  exact except_map_eq_error _ _ _

end OpaqueHelpers

/-- Claim C3: after stripping an optional `W/`, `from_str` reports
`MissingStartingDoubleQuote` exactly when the remainder does not begin with a
double quote, `MissingClosingDoubleQuote` exactly when it begins with one but
the rest does not end with one, and `InvalidTag` exactly when both quotes are
present but the span between them holds a non-etagc byte; a string with
neither quote therefore reports `MissingStartingDoubleQuote`. -/
theorem from_str_error_spec (s : List Nat) :
    (EntityTag.from_str s = .error .MissingStartingDoubleQuote ↔
      (EntityTag.strip_weak s).2.head? ≠ some 0x22)
    ∧ (EntityTag.from_str s = .error .MissingClosingDoubleQuote ↔
      ((EntityTag.strip_weak s).2.head? = some 0x22 ∧
        (EntityTag.strip_weak s).2.tail.getLast? ≠ some 0x22))
    ∧ (EntityTag.from_str s = .error .InvalidTag ↔
      ((EntityTag.strip_weak s).2.head? = some 0x22 ∧
        (EntityTag.strip_weak s).2.tail.getLast? = some 0x22 ∧
        ∃ c ∈ (EntityTag.strip_weak s).2.tail.dropLast, EntityTag.etagc_byte c = false)) := by
  refine ⟨?_, ?_, ?_⟩
  · rw [from_str_eq_error, check_opaque_tag_eq_msdq]
  · rw [from_str_eq_error, check_opaque_tag_eq_mcdq]
  · rw [from_str_eq_error, check_opaque_tag_eq_invalid]
    simp [List.all_eq_true]

section ParserEquivalence

open EntityTag

lemma from_string_from_str_aux (s : List Nat) :
    from_string s = from_str s := by
  have htag : (if (strip_weak s).1 then s.dropLast.drop 3 else s.dropLast.drop 1)
      = ((strip_weak s).2.drop 1).dropLast := by
    unfold strip_weak
    by_cases hw : s.take 2 = [0x57, 0x2F]
    · rw [if_pos hw]
      show s.dropLast.drop 3 = ((s.drop 2).drop 1).dropLast
      rw [List.drop_drop, dropLast_drop_comm]
    · rw [if_neg hw]
      show s.dropLast.drop 1 = (s.drop 1).dropLast
      rw [dropLast_drop_comm]
  simp only [from_string, from_str, htag]

end ParserEquivalence

/-- Claim C7: the owned-string strict parser `from_string` and the slicing
strict parser `from_str` agree on every input: same error on failure, equal
entity tag on success. -/
theorem from_string_eq_from_str (s : List Nat) :
    EntityTag.from_string s = EntityTag.from_str s :=
  from_string_from_str_aux s

section QuoteTolerant

open EntityTag

lemma spec_etagc_head_no_quote {b : List Nat} (h : ∀ c ∈ b, spec_etagc c) :
    b.head? ≠ some 0x22 := by
  cases b with
  | nil => simp
  | cons a t =>
    simp only [List.head?_cons, ne_eq, Option.some.injEq]
    intro ha
    have := h a (by simp)
    rw [ha] at this
    rcases this with h1 | h1 | h1 <;> omega

lemma check_tag_unquoted {b : List Nat} (h : ∀ c ∈ b, spec_etagc c) :
    check_tag b = .ok false := by
  unfold check_tag check_unquoted_tag
  rw [if_neg (spec_etagc_head_no_quote h), if_pos (all_etagc_of_spec h)]
  rfl

lemma check_tag_quoted {b : List Nat} (h : ∀ c ∈ b, spec_etagc c) :
    check_tag (0x22 :: (b ++ [0x22])) = .ok true := by
  unfold check_tag check_unquoted_tag
  simp [List.getLast?_concat, List.dropLast_concat, all_etagc_of_spec h, Except.map]

end QuoteTolerant

/-- Claim C6: for any weakness flag and any grammar-legal body, the
quote-tolerant constructors give the same entity tag on the bare body and on
the body wrapped in one pair of double quotes. -/
theorem with_str_quote_idempotent (w : Bool) (b : List Nat) (h : ∀ c ∈ b, spec_etagc c) :
    EntityTag.with_str w b = .ok ⟨w, b⟩
    ∧ EntityTag.with_str w (0x22 :: (b ++ [0x22])) = .ok ⟨w, b⟩
    ∧ EntityTag.with_string w b = .ok ⟨w, b⟩
    ∧ EntityTag.with_string w (0x22 :: (b ++ [0x22])) = .ok ⟨w, b⟩ := by
  refine ⟨?_, ?_, ?_, ?_⟩
  · unfold EntityTag.with_str
    rw [check_tag_unquoted h]
    rfl
  · unfold EntityTag.with_str
    rw [check_tag_quoted h]
    simp [Except.map, List.dropLast_concat]
  · unfold EntityTag.with_string
    rw [check_tag_unquoted h]
    rfl
  · unfold EntityTag.with_string
    rw [check_tag_quoted h]
    simp only [Except.map, if_true]
    rw [← List.cons_append, List.dropLast_concat]
    simp

/-- Witness for C6: the concrete body `a` (0x61) with and without quotes. -/
theorem with_str_quote_idempotent_witness :
    EntityTag.with_str true [0x61] = .ok ⟨true, [0x61]⟩
    ∧ EntityTag.with_str true (0x22 :: ([0x61] ++ [0x22])) = .ok ⟨true, [0x61]⟩
    ∧ EntityTag.with_string true [0x61] = .ok ⟨true, [0x61]⟩
    ∧ EntityTag.with_string true (0x22 :: ([0x61] ++ [0x22])) = .ok ⟨true, [0x61]⟩ :=
  with_str_quote_idempotent true [0x61] (by
    intro c hc
    simp only [List.mem_singleton] at hc
    subst hc
    right; left
    constructor <;> norm_num)

section RoundTrip

open EntityTag

lemma strip_weak_weak_wire (rest : List Nat) :
    strip_weak (0x57 :: 0x2F :: rest) = (true, rest) := by
  unfold strip_weak
  simp

lemma strip_weak_quote_wire (rest : List Nat) :
    strip_weak (0x22 :: rest) = (false, 0x22 :: rest) := by
  have hne : ¬ ((0x22 : Nat) :: rest).take 2 = [0x57, 0x2F] := by
    have h1 : ((0x22 : Nat) :: rest).take 2 = 0x22 :: rest.take 1 := rfl
    rw [h1]
    simp
  unfold strip_weak
  rw [if_neg hne]

lemma check_opaque_tag_wire {body : List Nat} (h : ∀ c ∈ body, spec_etagc c) :
    check_opaque_tag (0x22 :: (body ++ [0x22])) = .ok () := by
  rw [check_opaque_tag_eq_ok]
  refine ⟨by simp, ?_, ?_⟩
  · simp [List.getLast?_concat]
  · simp [List.dropLast_concat, all_etagc_of_spec h]

end RoundTrip

/-- Claim C1: every string matching the wire grammar (optional `W/`, then a
double quote, zero or more etagc bytes, and a double quote) is accepted by the
strict parser `from_str`, and formatting the parsed value with `display`
reproduces the input exactly. -/
theorem from_str_display_roundtrip (w : List Nat) (h : matches_wire_grammar w) :
    ∃ t, EntityTag.from_str w = .ok t ∧ EntityTag.display t = w := by
  obtain ⟨weak, body, hb, rfl⟩ := h
  cases weak with
  | true =>
    refine ⟨⟨true, body⟩, ?_, ?_⟩
    · show EntityTag.from_str (0x57 :: 0x2F :: (0x22 :: (body ++ [0x22]))) = _
      unfold EntityTag.from_str
      rw [strip_weak_weak_wire]
      rw [show ((true, 0x22 :: (body ++ [0x22])) : Bool × List Nat).2
            = 0x22 :: (body ++ [0x22]) from rfl]
      rw [check_opaque_tag_wire hb]
      simp [Except.map, List.dropLast_concat]
    · simp [EntityTag.display]
  | false =>
    refine ⟨⟨false, body⟩, ?_, ?_⟩
    · show EntityTag.from_str (0x22 :: (body ++ [0x22])) = _
      unfold EntityTag.from_str
      rw [strip_weak_quote_wire]
      rw [show ((false, 0x22 :: (body ++ [0x22])) : Bool × List Nat).2
            = 0x22 :: (body ++ [0x22]) from rfl]
      rw [check_opaque_tag_wire hb]
      simp [Except.map, List.dropLast_concat]
    · simp [EntityTag.display]

/-- Witness for C1: the wire text `W/"a"` parses and formats back to itself. -/
theorem from_str_display_roundtrip_witness :
    ∃ t, EntityTag.from_str [0x57, 0x2F, 0x22, 0x61, 0x22] = .ok t
      ∧ EntityTag.display t = [0x57, 0x2F, 0x22, 0x61, 0x22] :=
  from_str_display_roundtrip [0x57, 0x2F, 0x22, 0x61, 0x22]
    ⟨true, [0x61], by
      intro c hc
      simp only [List.mem_singleton] at hc
      subst hc
      right; left
      constructor <;> norm_num, by rfl⟩

section TagInvariant

open EntityTag

lemma b64char_etagc (n : Nat) : etagc_byte (b64char n) = true := by
  rw [etagc_byte_iff]
  unfold b64char
  split_ifs <;> omega

lemma base64_encode_all : ∀ l : List Nat, (base64_encode l).all etagc_byte = true
  | _ :: _ :: _ :: rest => by
    simp only [base64_encode, List.all_cons, b64char_etagc, Bool.true_and]
    exact base64_encode_all rest
  | [_, _] => by simp [base64_encode, b64char_etagc]
  | [_] => by simp [base64_encode, b64char_etagc]
  | [] => by simp [base64_encode]

lemma check_tag_ok_all {s : List Nat} {q : Bool} (h : check_tag s = .ok q) :
    (if q then (s.drop 1).dropLast else s).all etagc_byte = true := by
  unfold check_tag check_unquoted_tag at h
  split_ifs at h with h1 h2 h3 h4 <;> simp [Except.map] at h <;> subst h
  · simpa [List.drop_one] using h3
  · simpa using h4

lemma from_str_ok_all {s : List Nat} {t : EntityTag} (h : from_str s = .ok t) :
    t.tag.all etagc_byte = true := by
  unfold from_str at h
  cases hc : check_opaque_tag (strip_weak s).2 with
  | error e => rw [hc] at h; simp [Except.map] at h
  | ok u =>
    obtain ⟨⟩ := u
    rw [hc] at h
    simp only [Except.map, Except.ok.injEq] at h
    rw [← h]
    show (((strip_weak s).2.drop 1).dropLast).all etagc_byte = true
    rw [List.drop_one]
    exact ((check_opaque_tag_eq_ok _).mp hc).2.2

end TagInvariant

/-- Counterexample for C5 as stated: the quote-tolerant constructor accepts the
bare body `W/x` (all etagc bytes) and stores it verbatim, so a stored tag body
can begin with the two bytes `W/`. -/
theorem with_str_keeps_weak_marker_bytes :
    EntityTag.with_str false [0x57, 0x2F, 0x78] = .ok ⟨false, [0x57, 0x2F, 0x78]⟩
    ∧ ([0x57, 0x2F, 0x78] : List Nat).take 2 = [0x57, 0x2F] :=
  ⟨rfl, rfl⟩

/-- Claim C5 (amended): every entity tag produced by a successful checked
constructor or by a generator has a body of etagc-legal bytes only; in
particular it contains no double-quote byte and hence no surrounding quotes.
(The body may still happen to begin with the bytes `W/`; only the wire-format
weakness marker itself is never stored.) -/
theorem tag_body_wellformed
    (wyhash : Nat → List Nat → Nat) (w : Bool) (s : List Nat)
    (len : Nat) (m : Option Int) (t : EntityTag)
    (h : EntityTag.with_str w s = .ok t ∨ EntityTag.with_string w s = .ok t ∨
      EntityTag.from_str s = .ok t ∨ EntityTag.from_string s = .ok t ∨
      EntityTag.from_data wyhash s = t ∨ EntityTag.from_file_meta wyhash len m = some t) :
    t.tag.all EntityTag.etagc_byte = true ∧ 0x22 ∉ t.tag := by
  suffices hall : t.tag.all EntityTag.etagc_byte = true from
    ⟨hall, no_quote_of_all_etagc hall⟩
  rcases h with h | h | h | h | h | h
  · unfold EntityTag.with_str at h
    cases hc : EntityTag.check_tag s with
    | error e => rw [hc] at h; simp [Except.map] at h
    | ok q =>
      rw [hc] at h
      simp only [Except.map, Except.ok.injEq] at h
      rw [← h]
      exact check_tag_ok_all hc
  · unfold EntityTag.with_string at h
    cases hc : EntityTag.check_tag s with
    | error e => rw [hc] at h; simp [Except.map] at h
    | ok q =>
      rw [hc] at h
      simp only [Except.map, Except.ok.injEq] at h
      rw [← h]
      show (if q then s.dropLast.drop 1 else s).all EntityTag.etagc_byte = true
      rw [← dropLast_drop_comm]
      exact check_tag_ok_all hc
  · exact from_str_ok_all h
  · rw [from_string_from_str_aux] at h
    exact from_str_ok_all h
  · rw [← h]
    exact base64_encode_all _
  · unfold EntityTag.from_file_meta at h
    cases hi : EntityTag.file_meta_hash_input len m with
    | none => rw [hi] at h; simp at h
    | some i =>
      rw [hi] at h
      simp only [Option.map_some', Option.some.injEq] at h
      rw [← h]
      exact base64_encode_all _

/-- Witness for the amended C5 theorem, at the parsed input `"a"`. -/
theorem tag_body_wellformed_witness :
    ([0x61] : List Nat).all EntityTag.etagc_byte = true ∧ (0x22 : Nat) ∉ ([0x61] : List Nat) :=
  tag_body_wellformed (fun _ _ => 0) false [0x22, 0x61, 0x22] 0 none ⟨false, [0x61]⟩
    (Or.inl rfl)

/-- Claim C8: the generators are total: `from_data` returns a value for every
byte sequence, and `from_file_meta` returns a value for every file length and
every optional modification time; the modelled `.unwrap()` (a `none` result)
is never reached, because the epoch-minus-time duration is only computed when
the modification time is strictly before the epoch. -/
theorem generators_never_fail (wyhash : Nat → List Nat → Nat) (d : List Nat)
    (len : Nat) (m : Option Int) :
    (∃ u : EntityTag, EntityTag.from_data wyhash d = u)
    ∧ ∃ v : EntityTag, EntityTag.from_file_meta wyhash len m = some v := by
  refine ⟨⟨_, rfl⟩, ?_⟩
  unfold EntityTag.from_file_meta
  have hi : ∃ i, EntityTag.file_meta_hash_input len m = some i := by
    cases m with
    | none => exact ⟨_, rfl⟩
    | some t =>
      simp only [EntityTag.file_meta_hash_input]
      by_cases ht : 0 ≤ t
      · rw [if_pos ht]
        exact ⟨_, rfl⟩
      · rw [if_neg ht]
        unfold EntityTag.epoch_duration_since
        rw [if_pos (by omega : t ≤ 0)]
        exact ⟨_, rfl⟩
  obtain ⟨i, hieq⟩ := hi
  rw [hieq]
  exact ⟨_, rfl⟩
